import Mathlib

/-!
Shallow embedding of the `tools/draft_parser` pipeline of libquicr:
the message-block extractor, the field-line parser, the message assembler,
the type resolver (`moqt_parser/parsers.py`), the alias aggregation of
`main.py`, and a model of the two-phase emitter (`moqt_parser/code_generator.py`).
Python strings are modelled as Lean `String` / `List Char`; Python machine
integers are unbounded (`Int`), matching CPython semantics; fallible code and
uncaught Python exceptions are modelled with `Option` / `Except PyErr`.
-/

set_option maxRecDepth 20000

namespace DraftParser

/-! ### Python string primitives -/

/-- ASCII whitespace characters recognized by Python `str.strip` and the
regex class `\s` (for the draft text only ASCII occurs). -/
def isSpaceChar (c : Char) : Bool :=
  c = ' ' || c = '\t' || c = '\n' || c = '\r' || c = '\x0b' || c = '\x0c'

/-- Drop matching characters from the right end of a list. -/
def rdropWhileList (p : Char → Bool) (l : List Char) : List Char :=
  (l.reverse.dropWhile p).reverse

/-- Python `str.lstrip()`. -/
def ltrimList (l : List Char) : List Char := l.dropWhile isSpaceChar

/-- Python `str.strip()`. -/
def trimList (l : List Char) : List Char :=
  rdropWhileList isSpaceChar (ltrimList l)

/-- Python `str.rstrip(",")`: drop trailing commas. -/
def rstripCommas (l : List Char) : List Char :=
  rdropWhileList (fun c => c = ',') l

/-- Split a character list at the first occurrence of `c`; `none` when `c`
is absent.  Returns the part before and the part after the separator. -/
def splitFirst (c : Char) : List Char → Option (List Char × List Char)
  | [] => none
  | x :: xs =>
    if x = c then some ([], xs)
    else (splitFirst c xs).map (fun q => (x :: q.1, q.2))

/-- Python `str.split(sep)` for a one-character separator. -/
def splitOnChar (c : Char) : List Char → List (List Char)
  | [] => [[]]
  | x :: xs =>
    match splitOnChar c xs with
    | [] => [[]]
    | h :: t => if x = c then [] :: h :: t else (x :: h) :: t

/-- Python substring test `needle in hay`. -/
def listContains (needle : List Char) : List Char → Bool
  | [] => needle.isEmpty
  | x :: xs => needle.isPrefixOf (x :: xs) || listContains needle xs

/-- Worker for `removeAllSub`, structurally recursive on a fuel that bounds
the number of characters still to inspect; every step consumes at least one
character, so fuel `l.length` is exact. -/
def removeAllSubF (p0 : Char) (ps : List Char) : Nat → List Char → List Char
  | 0, l => l
  | _ + 1, [] => []
  | fuel + 1, x :: xs =>
    if (p0 :: ps).isPrefixOf (x :: xs) then removeAllSubF p0 ps fuel (xs.drop ps.length)
    else x :: removeAllSubF p0 ps fuel xs

/-- Python `str.replace(pat, "")` for a nonempty pattern `p0 :: ps`:
remove every (left-to-right, non-overlapping) occurrence. -/
def removeAllSub (p0 : Char) (ps : List Char) (l : List Char) : List Char :=
  removeAllSubF p0 ps l.length l

/-- Python `str.title()` restricted to ASCII: a letter is uppercased when the
previous character is not a letter, lowercased otherwise. -/
def titleCaseGo (startWord : Bool) : List Char → List Char
  | [] => []
  | c :: rest =>
    (if c.isAlpha then (if startWord then c.toUpper else c.toLower) else c) ::
      titleCaseGo (!c.isAlpha) rest

/-- Python `str.title()` (ASCII). -/
def titleCase (l : List Char) : List Char := titleCaseGo true l

/-- Python `str.lower()` followed by `.replace(" ", "_")`, as applied to the
canonical field identifier. -/
def lowerUnderscore (l : List Char) : List Char :=
  l.map (fun c => if c = ' ' then '_' else c.toLower)

/-- Value of one hexadecimal digit. -/
def hexDigitVal (c : Char) : Option Nat :=
  if '0' ≤ c ∧ c ≤ '9' then some (c.toNat - '0'.toNat)
  else if 'a' ≤ c ∧ c ≤ 'f' then some (c.toNat - 'a'.toNat + 10)
  else if 'A' ≤ c ∧ c ≤ 'F' then some (c.toNat - 'A'.toNat + 10)
  else none

/-- Digit run of a Python base-16 literal: hexadecimal digits with single
underscores allowed only between digits (CPython's `int(s, 16)` grammar). -/
def hexCore (acc : Nat) : List Char → Option Nat
  | [] => some acc
  | '_' :: c :: rest =>
    match hexDigitVal c with
    | some d => hexCore (16 * acc + d) rest
    | none => none
  | c :: rest =>
    match hexDigitVal c with
    | some d => hexCore (16 * acc + d) rest
    | none => none

/-- Embedding of CPython `int(s, 16)`: optional surrounding whitespace, an
optional sign, an optional `0x`/`0X` base marker (after which a single leading
underscore is tolerated), then hex digits.  `none` models the `ValueError`. -/
def int16 (s : String) : Option Int :=
  let l := trimList s.data
  let sp : Int × List Char :=
    match l with
    | '+' :: r => (1, r)
    | '-' :: r => (-1, r)
    | _ => (1, l)
  let pp : Bool × List Char :=
    match sp.2 with
    | '0' :: 'x' :: r => (true, r)
    | '0' :: 'X' :: r => (true, r)
    | _ => (false, sp.2)
  match pp.2 with
  | [] => none
  | c :: _ =>
    if pp.1 then (hexCore 0 pp.2).map (fun n => sp.1 * (n : Int))
    else if (hexDigitVal c).isSome then (hexCore 0 pp.2).map (fun n => sp.1 * (n : Int))
    else none

/-! ### Data model (`moqt_parser/message_spec.py`) -/

/-- Uncaught Python exception kinds reachable in this code. -/
inductive PyErr
  | attributeError
  | indexError
  | valueError
  | typeError
deriving Repr, DecidableEq

/-- One parsed field, mirroring the `Field` dataclass.  The dynamically
assigned attribute `variable_length_size_cpp_using_type` is `none` while the
attribute was never set and `some v` once set to `v` (where `v` is itself the
optional `cpp_using_type` of the elided field). -/
structure FieldBase where
  name : String
  field_type : String
  spec_name : String
  spec_type : Option String := none
  cpp_type : Option String := none
  cpp_using_type : Option String := none
  cpp_using_name : Option String := none
  length : Option String := none
  default_value : Option String := none
  is_optional : Bool := false
  is_repeated : Bool := false
  is_variable_length : Bool := false
  group_name : Option String := none
  variable_length_size_cpp_using_type : Option (Option String) := none
deriving Repr, DecidableEq

/-- A `Field` together with its `group_fields` attribute.  Group member
fields produced by `parse_field_definition` always carry
`group_fields = None`; only the synthetic group aggregate holds a list, and
the parser never nests groups, so one level of nesting is exact. -/
structure Field extends FieldBase where
  group_fields : Option (List FieldBase) := none
deriving Repr, DecidableEq

/-- View a plain parsed field as a `Field` (its `group_fields` is `None`). -/
def FieldBase.toField (b : FieldBase) : Field := { toFieldBase := b }

/-- Mirror of the `MessageSpec` class. -/
structure MessageSpec where
  name : String
  spec_name : String
  message_type : String
  message_enum : Int
  fields : List Field
  optional_groups : List (String × List FieldBase)
deriving Repr, DecidableEq

/-! ### The mutable lookup tables (Python `dict`, insertion ordered) -/

/-- Python `dict` assignment `m[k] = v` on an insertion-ordered association
list: update in place when the key exists, append otherwise. -/
def alInsert {α : Type} (m : List (String × α)) (k : String) (v : α) :
    List (String × α) :=
  if m.any (fun q => q.1 == k) then m.map (fun q => if q.1 == k then (k, v) else q)
  else m ++ [(k, v)]

/-- Python `m[k]` / `k in m` read access (first matching key). -/
def alLookup {α : Type} (m : List (String × α)) (k : String) : Option α :=
  (m.find? (fun q => q.1 == k)).map (fun q => q.2)

/-- The parser's `field_type_map`. -/
abbrev TypeMap := List (String × String)

/-! ### Field line parser (`ProtocolMessageParser.parse_field_definition`) -/

/-- First character class of the field-name capture: `[A-Za-z_]`. -/
def isNameStart (c : Char) : Bool := c.isAlpha || c = '_'

/-- Body character class of the field-name capture: `[A-Za-z0-9_\s]`. -/
def isNameBody (c : Char) : Bool :=
  c.isAlpha || c.isDigit || c = '_' || isSpaceChar c

/-- Comment and whitespace stripping applied to a field line:
`line.split("#")[0].strip().rstrip(",")`. -/
def cleanLine (line : String) : List Char :=
  rstripCommas (trimList (line.data.takeWhile (fun c => c ≠ '#')))

/-- Embedding of the anchored match of the field pattern
`^(?:\[)?([A-Za-z_][A-Za-z0-9_\s]*?)\s*\(([^)]+)\)(?:\s*=\s*([^,]+))?(?:\s*\.\.\.)?\]?`
on an already cleaned line.  The lazy name capture together with `\s*\(`
stops at the first `(`; every character before it must lie in the name class,
with trailing whitespace excluded from the capture.  The type capture is the
nonempty run up to the next `)`.  The greedy optional default capture is the
nonempty run of non-comma characters after `\s*=\s*`.  The two trailing
optional groups capture nothing. -/
def matchField (cs : List Char) : Option (List Char × List Char × Option (List Char)) :=
  let cs1 := match cs with
    | '[' :: rest => rest
    | _ => cs
  match cs1 with
  | [] => none
  | c0 :: _ =>
    if !isNameStart c0 then none
    else
      match splitFirst '(' cs1 with
      | none => none
      | some (nm, afterOpen) =>
        if !nm.all isNameBody then none
        else
          match splitFirst ')' afterOpen with
          | none => none
          | some (ty, afterClose) =>
            if ty.isEmpty then none
            else
              let dflt : Option (List Char) :=
                match ltrimList afterClose with
                | '=' :: r2 =>
                  let d := (ltrimList r2).takeWhile (fun c => c ≠ ',')
                  if d.isEmpty then none else some d
                | _ => none
              some (rdropWhileList isSpaceChar nm, ty, dflt)

/-- Python `name.replace(" ", "")`: the space-stripped, case-preserving
variant of a field name used for the qualified key and the alias name. -/
def noSpaceName (s : String) : String := String.mk (s.data.filter (fun c => c ≠ ' '))

/-- Sentinel emitted on a miss in every tier of the type lookup:
`f'#error "field_type_map look error for {name}"'`. -/
def errorSentinel (name : String) : String :=
  "#error \"field_type_map look error for " ++ name ++ "\""

/-- Type resolution of `parse_field_definition` (lines 41-52 of
`parsers.py`): first the qualified key `f"{message_name}::{name-without-spaces}"`
(which additionally prefixes the alias name with the message name), then the
bare field name, then the spec type; a miss at every tier produces the
`#error` sentinel.  Returns `(cpp_type, cpp_using_name)`. -/
def resolveFieldType (tm : TypeMap) (message_name name spec_type : String) :
    String × String :=
  let noSpace := noSpaceName name
  let comp := message_name ++ "::" ++ noSpace
  match alLookup tm comp with
  | some t => (t, message_name ++ noSpace)
  | none =>
    match alLookup tm name with
    | some t => (t, noSpace)
    | none =>
      match alLookup tm spec_type with
      | some t => (t, noSpace)
      | none => (errorSentinel name, noSpace)

/-- Embedding of `ProtocolMessageParser.parse_field_definition`. -/
def parseFieldDefinition (tm : TypeMap) (message_name : String) (line : String)
    (group_name : Option String) : Option FieldBase :=
  let cl := cleanLine line
  if cl.isEmpty then none
  else
    match matchField cl with
    | none => none
    | some (nmRaw, tyRaw, dfltRaw) =>
      let name := String.mk (trimList nmRaw)
      let parsed_field_type := String.mk (trimList tyRaw)
      let is_optional : Bool :=
        (match cl with
         | '[' :: _ => true
         | _ => false) || group_name.isSome
      let is_repeated : Bool := listContains ['.', '.', '.'] cl
      let is_variable_length : Bool := parsed_field_type = ".."
      let rt := resolveFieldType tm message_name name parsed_field_type
      let cpp_using_type : String :=
        if is_repeated then "std::vector<" ++ rt.1 ++ ">" else rt.1
      some
        { name := String.mk (lowerUnderscore name.data)
          field_type := parsed_field_type
          spec_name := name
          spec_type := some parsed_field_type
          cpp_type := some rt.1
          cpp_using_type := some cpp_using_type
          cpp_using_name := some rt.2
          default_value := dfltRaw.map (fun d => String.mk (trimList d))
          is_optional := is_optional
          is_repeated := is_repeated
          is_variable_length := is_variable_length
          group_name := group_name }

/-! ### Message assembler (`ProtocolMessageParser.parse_message`)

The Python loop walks the block's non-empty, non-`}` lines with an index
shared between the scanning state and the optional-group inner loop.  The
embedding processes one line per step and keeps the group inner-loop state in
`AsmState.inGroup`.  Accumulating lists are kept in reverse (newest first), so
Python's `list.append` is `cons` and `list.pop()` takes the head; they are
reversed back when the `MessageSpec` is built. -/

/-- Per-block assembly state. -/
structure AsmState where
  fields : List Field := []
  optional_groups : List (String × List FieldBase) := []
  message_enum : Option Int := none
  tm : TypeMap := []
  inGroup : Option (String × List FieldBase) := none
deriving Repr, DecidableEq

/-- Scanning-state step (the `else` branch of the outer loop, lines 167-183):
parse the line as a standalone field — reading `field.name` before the
`field is not None` guard, hence `AttributeError` on an unmatched line — then
record a `type` field's default as the wire id via `int(d, 16)`, and for a
repeated or variable-length field pop the previously appended field as its
size field (`IndexError` when there is none). -/
def stepTop (message_name : String) (st : AsmState) (line : String) :
    Except PyErr AsmState :=
  match parseFieldDefinition st.tm message_name line none with
  | none => .error .attributeError
  | some f =>
    let enumRes : Except PyErr (Option Int) :=
      if f.name = "type" then
        match f.default_value with
        | some d =>
          match int16 d with
          | some v => .ok (some v)
          | none => .error .valueError
        | none => .ok st.message_enum
      else .ok st.message_enum
    match enumRes with
    | .error e => .error e
    | .ok enum' =>
      if f.is_repeated || f.is_variable_length then
        match st.fields with
        | [] => .error .indexError
        | prev :: rest =>
          .ok { st with
                fields :=
                  FieldBase.toField
                    { f with variable_length_size_cpp_using_type := some prev.cpp_using_type }
                    :: rest
                message_enum := enum' }
      else
        .ok { st with fields := FieldBase.toField f :: st.fields, message_enum := enum' }

/-- Group inner-loop step for a non-closing line whose leading `[` has
already been stripped (lines 146-159): parse with the group name; a `None`
result is skipped; only a variable-length field pops the previously
accumulated group field as its size field (`IndexError` when the group list
is empty); repeated-only fields are appended unchanged. -/
def groupBodyStep (message_name group : String) (tm : TypeMap)
    (gfs : List FieldBase) (line : String) : Except PyErr (List FieldBase) :=
  match parseFieldDefinition tm message_name line (some group) with
  | none => .ok gfs
  | some f =>
    if f.is_variable_length then
      match gfs with
      | [] => .error .indexError
      | prev :: rest =>
        .ok ({ f with variable_length_size_cpp_using_type := some prev.cpp_using_type } :: rest)
    else .ok (f :: gfs)

/-- Group inner-loop step for the closing line (lines 126-141): the trailing
`]` has been stripped; any remaining content is parsed with the group name and
appended without size-field elision. -/
def groupClosingStep (message_name group : String) (tm : TypeMap)
    (gfs : List FieldBase) (content : String) : List FieldBase :=
  if content = "" then gfs
  else
    match parseFieldDefinition tm message_name content (some group) with
    | none => gfs
    | some f => f :: gfs

/-- Closing a group (lines 161-166, also reached when the block ends with the
group still open): append the synthetic aggregate field, register the group's
type in the resolver table, and record the member list in `optional_groups`. -/
def finishGroup (message_type : String) (st : AsmState) (group : String)
    (gfs : List FieldBase) : AsmState :=
  let gtype := message_type ++ "::" ++ group
  let agg : Field :=
    { name := String.mk (group.data.map Char.toLower)
      field_type := gtype
      spec_name := String.mk (group.data.map Char.toLower)
      spec_type := some "optional group"
      cpp_type := some gtype
      cpp_using_type := none
      cpp_using_name := some gtype
      default_value := none
      is_optional := true
      is_repeated := false
      is_variable_length := false
      group_name := some group
      group_fields := some gfs.reverse }
  { st with
    fields := agg :: st.fields
    tm := alInsert st.tm gtype gtype
    optional_groups := alInsert st.optional_groups group gfs.reverse
    inGroup := none }

/-- One iteration of the group inner loop on a raw body line: re-strip and
drop trailing commas, close the group when the line ends in `]`, otherwise
strip a leading `[` and take a body step. -/
def processGroupLine (message_name message_type : String) (st : AsmState)
    (group : String) (gfs : List FieldBase) (l : String) :
    Except PyErr AsmState :=
  let line := String.mk (rstripCommas (trimList l.data))
  if ([']'] : List Char).isSuffixOf line.data then
    let content := String.mk (trimList line.data.dropLast)
    let gfs' := groupClosingStep message_name group st.tm gfs content
    .ok (finishGroup message_type st group gfs')
  else
    let line2 :=
      match line.data with
      | '[' :: rest => String.mk (trimList rest)
      | _ => line
    match groupBodyStep message_name group st.tm gfs line2 with
    | .error e => .error e
    | .ok gfs' => .ok { st with inGroup := some (group, gfs') }

/-- Dispatch for one body line: continue an open group, open a new group on a
leading `[` (named `Group_<n>` with `n = len(optional_groups)`, processing the
same line as the first inner-loop line), or take a scanning step. -/
def processLine (message_name message_type : String) (st : AsmState)
    (l : String) : Except PyErr AsmState :=
  match st.inGroup with
  | some (group, gfs) =>
    processGroupLine message_name message_type { st with inGroup := none } group gfs l
  | none =>
    match l.data with
    | '[' :: _ =>
      let group := "Group_" ++ toString st.optional_groups.length
      processGroupLine message_name message_type st group [] l
    | _ => stepTop message_name st l

/-- Fold of `processLine` over the block's body lines. -/
def processLines (message_name message_type : String) (st : AsmState) :
    List String → Except PyErr AsmState
  | [] => .ok st
  | l :: rest =>
    match processLine message_name message_type st l with
    | .error e => .error e
    | .ok st' => processLines message_name message_type st' rest

/-- Embedding of `ProtocolMessageParser.parse_message`.  Besides the optional
`MessageSpec` (`none` models the dropped, reported message without a wire-type
id) the updated `field_type_map` is returned: the Python parser mutates
`self.field_type_map`, which persists across blocks. -/
def parseMessage (tm : TypeMap) (text : String) : Except PyErr (Option MessageSpec × TypeMap) :=
  let lines0 := splitOnChar '\n' (trimList text.data)
  let headerLine := lines0.headD []
  let message_spec :=
    String.mk
      (removeAllSub ' ' "Message".data
        (trimList (headerLine.takeWhile (fun c => c ≠ '\x7b'))))
  let message_name := String.mk ((titleCase message_spec.data).filter (fun c => c ≠ '_'))
  let message_type := message_name
  let body :=
    ((lines0.drop 1).map (fun l => trimList l)).filterMap
      (fun l => if l.isEmpty || l = ['\x7d'] then none else some (String.mk l))
  let st0 : AsmState := { tm := tm }
  match processLines message_name message_type st0 body with
  | .error e => .error e
  | .ok stEnd =>
    let stF :=
      match stEnd.inGroup with
      | some (group, gfs) => finishGroup message_type { stEnd with inGroup := none } group gfs
      | none => stEnd
    match stF.message_enum with
    | none => .ok (none, stF.tm)
    | some v =>
      .ok (some
        { name := message_name
          spec_name := message_spec
          message_type := message_type
          message_enum := v
          fields := stF.fields.reverse
          optional_groups := stF.optional_groups }, stF.tm)

/-! ### Message block extractor (`parse_messages`, regex
`([A-Za-z_][A-Za-z0-9_]*\s*Message\s*\{[^}]+\})` with `re.finditer`) -/

/-- Word-character class `[A-Za-z0-9_]`. -/
def isWordChar (c : Char) : Bool := c.isAlpha || c.isDigit || c = '_'

/-- Match the pattern tail `\s*Message\s*\{[^}]+\}` at the head of `cs`;
returns `(consumed, rest)`.  Both `\s*` runs and the `[^}]+` body run are
deterministic here because the following literal can never extend them. -/
def matchAfterIdent (cs : List Char) : Option (List Char × List Char) :=
  let sp1 := cs.takeWhile isSpaceChar
  let r1 := cs.dropWhile isSpaceChar
  if ("Message".data).isPrefixOf r1 then
    let r2 := r1.drop 7
    let sp2 := r2.takeWhile isSpaceChar
    let r3 := r2.dropWhile isSpaceChar
    match r3 with
    | '\x7b' :: r4 =>
      let body := r4.takeWhile (fun c => c ≠ '\x7d')
      if body.isEmpty then none
      else
        match r4.dropWhile (fun c => c ≠ '\x7d') with
        | '\x7d' :: r6 =>
          some (sp1 ++ "Message".data ++ sp2 ++ '\x7b' :: body ++ ['\x7d'], r6)
        | _ => none
    | _ => none
  else none

/-- Return the first `some` produced by `f` along `l`. -/
def firstSome {α β : Type} (f : α → Option β) : List α → Option β
  | [] => none
  | x :: xs =>
    match f x with
    | some y => some y
    | none => firstSome f xs

/-- Try to match the whole block pattern at the head of `cs`.  The greedy
identifier capture `[A-Za-z_][A-Za-z0-9_]*` backtracks from the longest
word-character run downwards until the pattern tail matches. -/
def tryMatchAt (cs : List Char) : Option (List Char × List Char) :=
  match cs with
  | [] => none
  | c :: rest =>
    if !(c.isAlpha || c = '_') then none
    else
      let w := rest.takeWhile isWordChar
      let afterW := rest.dropWhile isWordChar
      firstSome
        (fun k =>
          (matchAfterIdent (w.drop k ++ afterW)).map
            (fun q => (c :: (w.take k ++ q.1), q.2)))
        ((List.range (w.length + 1)).reverse)

/-- Non-overlapping leftmost scan of `re.finditer`, fuelled by the text
length (each step consumes at least one character, so the fuel is exact). -/
def scanBlocksF : Nat → List Char → List (List Char)
  | 0, _ => []
  | _, [] => []
  | fuel + 1, c :: rest =>
    match tryMatchAt (c :: rest) with
    | some (m, after) => m :: scanBlocksF fuel after
    | none => scanBlocksF fuel rest

/-- All message blocks of the spec text, in order. -/
def extractBlocks (text : String) : List String :=
  (scanBlocksF text.data.length text.data).map String.mk

/-- Embedding of `ProtocolMessageParser.parse_messages` with the
`field_type_map` threaded through the blocks; dropped messages (`None`) are
skipped, uncaught exceptions propagate. -/
def parseMessagesAux (tm : TypeMap) : List String → Except PyErr (List MessageSpec × TypeMap)
  | [] => .ok ([], tm)
  | b :: bs =>
    match parseMessage tm b with
    | .error e => .error e
    | .ok (none, tm') => parseMessagesAux tm' bs
    | .ok (some m, tm') =>
      match parseMessagesAux tm' bs with
      | .error e => .error e
      | .ok (ms, tm'') => .ok (m :: ms, tm'')

/-- Embedding of `ProtocolMessageParser.parse_messages`. -/
def parseMessages (tm : TypeMap) (text : String) : Except PyErr (List MessageSpec) :=
  (parseMessagesAux tm (extractBlocks text)).map (fun q => q.1)

/-! ### `main.py`: base type map, alias aggregation, top-level run -/

/-- The caller-supplied base `type_map` of `main`. -/
def defaultTypeMap : TypeMap :=
  [("i", "std::uint64_t"),
   ("8", "std::uint8_t"),
   ("16", "std::uint16_t"),
   ("32", "std::uint32_t"),
   ("64", "std::uint64_t"),
   ("Start Group", "quicr::messages::GroupId"),
   ("End Group", "quicr::messages::GroupId"),
   ("Start Object", "quicr::messages::ObjectId"),
   ("End Object", "quicr::messages::ObjectId"),
   ("Track Namespace", "quicr::TrackNamespace"),
   ("Track Name", "quicr::Bytes"),
   ("Track Namespace Prefix", "quicr::TrackNamespace"),
   ("Subscribe Parameters", "quicr::messages::Parameter"),
   ("Setup Parameters", "quicr::messages::Parameter"),
   ("New Session URI", "quicr::Bytes"),
   ("Parameters", "quicr::messages::Parameter"),
   ("Reason Phrase", "quicr::Bytes"),
   ("Filter Type", "quicr::messages::FilterType"),
   ("Group Order", "quicr::messages::GroupOrder"),
   ("Fetch Type", "quicr::messages::FetchType"),
   ("SubscribeDone::StatusCode", "quicr::messages::SubscribeDoneStatusCode"),
   ("SubscribeError::ErrorCode", "quicr::messages::SubscribeErrorCode"),
   ("AnnounceError::ErrorCode", "quicr::messages::AnnounceErrorCode"),
   ("AnnounceCancel::ErrorCode", "quicr::messages::AnnounceErrorCode"),
   ("SubscribeAnnouncesError::ErrorCode", "quicr::messages::SubscribeAnnouncesErrorCode"),
   ("FetchError::ErrorCode", "quicr::messages::FetchErrorCode"),
   ("Start Location", "quicr::messages::Location"),
   ("End Location", "quicr::messages::Location"),
   ("Largest Location", "quicr::messages::Location"),
   ("Start", "quicr::messages::Location"),
   ("Largest", "quicr::messages::Location")]

/-- The `field_discards = ["Type", "Length"]` list of `main`. -/
def fieldDiscards : List String := ["Type", "Length"]

/-- The alias (`using`) table. -/
abbrev UsingMap := List (String × Field)

/-- Insertion of one group member into the `using_map` (main.py lines 66-71):
every member with a non-`None` `cpp_using_name` is inserted unconditionally
(the `None` branch only prints). -/
def addGroupFieldUsing (acc : UsingMap) (gf : FieldBase) : UsingMap :=
  match gf.cpp_using_name with
  | some k => alInsert acc k gf.toField
  | none => acc

/-- Group-member stage of the `using_map` accumulation: when the field has a
non-empty (truthy) `group_fields` list, insert every member. -/
def groupUsings (um : UsingMap) (f : Field) : UsingMap :=
  match f.group_fields with
  | some gfs =>
    if gfs.isEmpty then um
    else gfs.foldl addGroupFieldUsing um
  | none => um

/-- One iteration of the `using_map` accumulation in `main` (lines 64-76):
every member of a non-empty `group_fields` list is inserted unconditionally;
then the field itself is inserted when its `spec_name` is not discarded and
it is not optional (such fields always carry a `cpp_using_name`). -/
def addFieldUsings (um : UsingMap) (f : Field) : UsingMap :=
  let um1 := groupUsings um f
  if f.spec_name ∉ fieldDiscards ∧ f.is_optional = false then
    match f.cpp_using_name with
    | some k => alInsert um1 k f
    | none => um1
  else um1

/-- The full `using_map` accumulation over all messages and fields. -/
def buildUsingMap (msgs : List MessageSpec) : UsingMap :=
  msgs.foldl (fun acc m => m.fields.foldl addFieldUsings acc) []

/-- The `repeat_using_map` accumulation (lines 78-81): for every entry of
`using_map` in insertion order whose field is repeated, map its
`cpp_using_type` to the field. -/
def buildRepeatUsingMap (um : UsingMap) : UsingMap :=
  um.foldl
    (fun acc q =>
      if q.2.is_repeated then
        match q.2.cpp_using_type with
        | some t => alInsert acc t q.2
        | none => acc
      else acc)
    []

/-- Python positional-call arity check: calling a bound method whose
signature declares `nparams` parameters (beyond `self`) with `nargs`
positional arguments raises `TypeError` unless they agree (none of the
parameters involved here have defaults). -/
def pyCallCheck (nparams nargs : Nat) : Except PyErr Unit :=
  if nargs = nparams then .ok () else .error .typeError

/-- Parameters of `CodeGenerator.__init__(self, language)` beyond `self`. -/
def codeGeneratorInitParams : Nat := 1

/-- Positional arguments of the call `CodeGenerator("cpp", filename)` in
`main` (line 50). -/
def mainCodeGeneratorArgs : Nat := 2

/-- Embedding of `main(rfc_filename, output_name)` up to artifact emission,
with file I/O abstracted to the input text.  The construction order follows
the source: `ProtocolMessageParser(type_map)` (arity 1/1, fine), then
`CodeGenerator("cpp", filename)` — whose arity mismatch raises `TypeError`
before the input is even opened — then parsing and aggregation; the result is
the data main would hand to the generator, or `none` when the parsed message
list is empty and no artifacts are written. -/
def mainRun (text : String) : Except PyErr (Option (List MessageSpec × UsingMap × UsingMap)) :=
  match pyCallCheck codeGeneratorInitParams mainCodeGeneratorArgs with
  | .error e => .error e
  | .ok _ =>
    match parseMessages defaultTypeMap text with
    | .error e => .error e
    | .ok msgs =>
      let um := buildUsingMap msgs
      let rum := buildRepeatUsingMap um
      if msgs.length > 0 then .ok (some (msgs, um, rum)) else .ok none

/-! ### Emitter (`code_generator.py` + templates)

Modelled from the spec: the jinja2 template files under
`tools/draft_parser/moqt_parser/templates/cpp` are not among the analyzed
sources; per the spec (§4.6 and §2 item 6) the rendering engine is an opaque,
deterministic "render template with bindings" capability.  Each template is
therefore modelled as a pure function of the bindings it receives in
`code_generator.py`. -/

/-- One pure rendering function per template file. -/
structure Templates where
  headerBegin : String
  headerUsing : UsingMap → String
  headerEnums : List MessageSpec → String
  headerStructs : MessageSpec → String
  headerEnd : UsingMap → String
  sourceBegin : String
  sourceStructs : MessageSpec → String
  sourceEnd : UsingMap → String

/-- Stable ascending sort by `message_enum`: the in-place
`messages.sort(key=..., reverse=False)` of `generate_header_message_enums`
(Python's sort is stable). -/
def insertByEnum (m : MessageSpec) : List MessageSpec → List MessageSpec
  | [] => [m]
  | x :: xs =>
    if x.message_enum ≤ m.message_enum then x :: insertByEnum m xs
    else m :: x :: xs

/-- Stable insertion sort over the message list. -/
def sortMessages (msgs : List MessageSpec) : List MessageSpec :=
  msgs.foldl (fun acc m => insertByEnum m acc) []

/-- Embedding of `CodeGenerator.generate_header`: fixed concatenation of the header
sections; the enum section sorts the (shared) message list in place, so the
struct section iterates the sorted list. -/
def generateHeader (tp : Templates) (msgs : List MessageSpec) (um : UsingMap) : String :=
  let sorted := sortMessages msgs
  tp.headerBegin ++ tp.headerUsing um ++ tp.headerEnums sorted
    ++ String.join (sorted.map tp.headerStructs) ++ tp.headerEnd um

/-- Embedding of `CodeGenerator.generate_source`: fixed concatenation of the source
sections; `main` calls it after `generate_header`, so it sees the message
list already sorted by the enum section's in-place sort. -/
def generateSource (tp : Templates) (msgs : List MessageSpec) (um : UsingMap) : String :=
  let sorted := sortMessages msgs
  tp.sourceBegin ++ String.join (sorted.map tp.sourceStructs) ++ tp.sourceEnd um

/-- The parse → aggregate → emit pipeline as a function of the input text
(emission as specified, i.e. with the generator invoked on the assembled
model); `none` when parsing raises or no message survives, otherwise the two
artifacts `(declarations, definitions)`. -/
def runPipeline (tp : Templates) (text : String) : Option (String × String) :=
  match parseMessages defaultTypeMap text with
  | .error _ => none
  | .ok msgs =>
    if msgs.length > 0 then
      let um := buildUsingMap msgs
      some (generateHeader tp msgs um, generateSource tp msgs um)
    else none

/-! ### Helper lemmas -/

/-- Substring containment at the `String` level. -/
def strContains (hay needle : String) : Bool := listContains needle.data hay.data

/-- A list all of whose characters satisfy `p` is its own `takeWhile`. -/
theorem takeWhile_eq_self_of_all {p : Char → Bool} {l : List Char}
    (h : ∀ c ∈ l, p c = true) : l.takeWhile p = l := by
  induction l with
  | nil => rfl
  | cons x xs ih =>
    have hx := h x (by simp)
    simp [List.takeWhile_cons, hx, ih fun c hc => h c (List.mem_cons_of_mem _ hc)]

/-- A list none of whose characters satisfy `p` is its own `dropWhile`. -/
theorem dropWhile_eq_self_of_none {p : Char → Bool} {l : List Char}
    (h : ∀ c ∈ l, p c = false) : l.dropWhile p = l := by
  cases l with
  | nil => rfl
  | cons x xs => simp [List.dropWhile_cons, h x (by simp)]

/-- Dropping from the right does nothing when the appended suffix is nonempty
and none of its characters satisfy `p`. -/
theorem rdropWhileList_append_eq_self (p : Char → Bool) (l : List Char)
    {s : List Char} (hne : s ≠ []) (h : ∀ c ∈ s, p c = false) :
    rdropWhileList p (l ++ s) = l ++ s := by
  obtain ⟨c, cs, hrev⟩ := List.exists_cons_of_ne_nil (fun he => hne (by simpa using he) :
    s.reverse ≠ [])
  have hcs : c ∈ s := by
    rw [← List.mem_reverse, hrev]
    exact List.mem_cons_self c cs
  have hc : p c = false := h c hcs
  unfold rdropWhileList
  rw [List.reverse_append, hrev, List.cons_append, List.dropWhile_cons, hc]
  have hs2 : cs.reverse ++ [c] = s := by
    rw [← List.reverse_reverse s, hrev, List.reverse_cons]
  simp only [Bool.false_eq_true, if_false]
  rw [List.reverse_cons, List.reverse_append, List.reverse_reverse, List.append_assoc, hs2]

/-- A prefix occurrence is a substring occurrence. -/
theorem listContains_of_isPrefixOf {p l : List Char} (h : p.isPrefixOf l = true) :
    listContains p l = true := by
  cases l with
  | nil =>
    cases p with
    | nil => rfl
    | cons a as => simp [List.isPrefixOf] at h
  | cons c cs => simp [listContains, h]

/-- Substring occurrence is stable under extending the haystack on the left. -/
theorem listContains_cons {p : List Char} (x : Char) {xs : List Char}
    (h : listContains p xs = true) : listContains p (x :: xs) = true := by
  simp [listContains, h]

/-- A list occurs in any haystack of the shape `x ++ n ++ y`. -/
theorem listContains_append_mid (x n y : List Char) :
    listContains n (x ++ (n ++ y)) = true := by
  induction x with
  | nil => exact listContains_of_isPrefixOf (List.isPrefixOf_iff_prefix.mpr (List.prefix_append n y))
  | cons a as ih => exact listContains_cons a ih

/-- When no character of `l` is a dot, `l` has no `...` occurrence. -/
theorem listContains_dots_eq_false {l : List Char} (h : ∀ c ∈ l, c ≠ '.') :
    listContains ['.', '.', '.'] l = false := by
  induction l with
  | nil => rfl
  | cons x xs ih =>
    have hx : x ≠ '.' := h x (by simp)
    have : (['.', '.', '.'] : List Char).isPrefixOf (x :: xs) = false := by
      simp [List.isPrefixOf]
      intro he
      exact absurd he.symm hx
    simp [listContains, this, ih fun c hc => h c (List.mem_cons_of_mem _ hc)]

/-- Alphanumeric characters (the characters of a hex literal). -/
def isAlnumChar (c : Char) : Bool := c.isAlpha || c.isDigit

/-- An alphanumeric character differs from any non-alphanumeric one. -/
theorem isAlnumChar_ne {c : Char} (x : Char) (h : isAlnumChar c = true)
    (hx : isAlnumChar x = false) : c ≠ x := by
  intro he
  rw [he, hx] at h
  exact Bool.false_ne_true h

/-- An alphanumeric character is not whitespace. -/
theorem isAlnumChar_not_space {c : Char} (h : isAlnumChar c = true) :
    isSpaceChar c = false := by
  cases hv : isSpaceChar c
  · rfl
  · exfalso
    have hmem : c = ' ' ∨ c = '\t' ∨ c = '\n' ∨ c = '\r' ∨ c = '\x0b' ∨ c = '\x0c' := by
      simp only [isSpaceChar, Bool.or_eq_true, decide_eq_true_eq] at hv
      tauto
    rcases hmem with h' | h' | h' | h' | h' | h' <;> subst h' <;> simp [isAlnumChar] at h

/-! ### Concrete inputs used by counterexamples and evaluation theorems -/

/-- Default field value for total projections. -/
def blankFieldBase : FieldBase := { name := "", field_type := "", spec_name := "" }

/-- Block whose optional group holds a repeated (not variable-length) second
field: `[A (i) = 1, B (i) ...]`. -/
def inputGroupRepeated : String :=
  "M Message \x7b\nType (8) = 0x1,\n[A (i) = 1,\nB (i) ...]\n\x7d"

/-- Block with a non-empty top-level line that does not match the field
grammar. -/
def inputJunkLine : String :=
  "M Message \x7b\nType (8) = 0x1,\njunk line\n\x7d"

/-- Two blocks, the first without a `Type` field, the second valid. -/
def inputTwoBlocks : String :=
  "A Message \x7b\nFoo (8) = 0x1\n\x7d\nB Message \x7b\nType (8) = 0x2\n\x7d"

/-- Block whose optional group holds a single field `A`. -/
def inputSingleGroup : String :=
  "M Message \x7b\nType (8) = 0x1,\n[A (i) = 1]\n\x7d"

/-- Block whose optional group starts with a repeated field. -/
def inputGroupFirstRepeated : String :=
  "M Message \x7b\nType (8) = 0x1,\n[B (i) ...,\nC (8)]\n\x7d"

/-! ### Claims -/

/-- C1: the claim says every two-argument invocation whose input has at least
one surviving block exits with status 0 after writing both artifacts, with no
exception escaping the top-level run.  The code contradicts it: `main`
executes `CodeGenerator("cpp", filename)` (two positional arguments) against
`CodeGenerator.__init__(self, language)` (one parameter), so every run — for
every input text — raises `TypeError` before any artifact is written (the
later calls `generate_header(messages, using_map, repeat_using_map,
field_discards)` against a two-parameter signature would equally raise). -/
theorem C1_main_always_raises_type_error (text : String) :
    mainRun text = .error .typeError := rfl

/-- C3: the claim says a non-empty top-level line that does not match the
field grammar is silently skipped.  The code reads `field.name` before the
`field is not None` guard (parsers.py lines 168-169), so such a line raises
`AttributeError`, which propagates out of `parse_messages`: evaluated here on
a block containing the line `junk line`. -/
theorem C3_unmatched_line_raises :
    parseMessages defaultTypeMap inputJunkLine = .error .attributeError := rfl

/-- C7: the claim says a block without a `Type` field is dropped and the run
still emits artifacts for the remaining valid blocks.  The parser-level half
holds — on `inputTwoBlocks` the `A` block (no `Type` field) is absent and the
`B` block survives with wire id 2 — but no run ever emits artifacts: `main`
raises `TypeError` constructing the generator (see C1), so the emission half
of the claim is false on the code. -/
theorem C7_drop_without_crash_parser_level :
    (parseMessages defaultTypeMap inputTwoBlocks).map
        (fun ms => ms.map (fun m => (m.name, m.message_enum)))
      = .ok [("B", 2)]
    ∧ mainRun inputTwoBlocks = .error .typeError :=
  ⟨rfl, rfl⟩

/-- C4: type resolution consults, in order, the qualified key
`{message_name}::{space-stripped field name}`, the bare field name, and the
spec type, returning the first hit; when all three tiers miss it returns —
it is a total function, never an exception — the `#error` sentinel string,
which contains the failed bare-name lookup key. -/
theorem C4_type_resolution (tm : TypeMap) (mn nm st : String) :
    (∀ v, alLookup tm (mn ++ "::" ++ noSpaceName nm) = some v →
        (resolveFieldType tm mn nm st).1 = v)
    ∧ (alLookup tm (mn ++ "::" ++ noSpaceName nm) = none →
        ∀ v, alLookup tm nm = some v → (resolveFieldType tm mn nm st).1 = v)
    ∧ (alLookup tm (mn ++ "::" ++ noSpaceName nm) = none → alLookup tm nm = none →
        ∀ v, alLookup tm st = some v → (resolveFieldType tm mn nm st).1 = v)
    ∧ (alLookup tm (mn ++ "::" ++ noSpaceName nm) = none → alLookup tm nm = none →
        alLookup tm st = none →
        (resolveFieldType tm mn nm st).1 = errorSentinel nm
        ∧ strContains (resolveFieldType tm mn nm st).1 nm = true) := by
  refine ⟨?_, ?_, ?_, ?_⟩
  · intro v hv
    simp [resolveFieldType, hv]
  · intro h1 v hv
    simp [resolveFieldType, h1, hv]
  · intro h1 h2 v hv
    simp [resolveFieldType, h1, h2, hv]
  · intro h1 h2 h3
    refine ⟨by simp [resolveFieldType, h1, h2, h3], ?_⟩
    have hres : (resolveFieldType tm mn nm st).1 = errorSentinel nm := by
      simp [resolveFieldType, h1, h2, h3]
    rw [hres]
    show listContains nm.data (errorSentinel nm).data = true
    have : (errorSentinel nm).data
        = "#error \"field_type_map look error for ".data ++ (nm.data ++ "\"".data) := by
      simp [errorSentinel]
    rw [this]
    exact listContains_append_mid _ _ _

/-- Witness for C4: with the empty type map every tier misses; resolving
`Foo` in message `M` yields the sentinel, which contains `Foo`. -/
theorem C4_type_resolution_witness :
    (resolveFieldType [] "M" "Foo" "bar").1 = errorSentinel "Foo"
    ∧ strContains (resolveFieldType [] "M" "Foo" "bar").1 "Foo" = true :=
  (C4_type_resolution [] "M" "Foo" "bar").2.2.2 rfl rfl rfl

/-- C9: the parse → aggregate → emit pipeline is a pure function of the
input text: two runs on equal inputs produce byte-identical declaration and
definition artifacts.  The embedding has no other inputs because the source
has none — no timestamps, no randomness; the only iteration order over
collected data is the insertion order of Python dicts (modelled by the
ordered association list) and the stable in-place sort by wire id.  The
template renderer (not among the sources) is spec-modelled as a pure
function, cf. `Templates`. -/
theorem C9_pipeline_deterministic (tp : Templates) (t1 t2 : String) (h : t1 = t2) :
    runPipeline tp t1 = runPipeline tp t2 := by rw [h]

/-- Trivial concrete template set for the C9 witness. -/
def constTemplates : Templates :=
  { headerBegin := "HB\n"
    headerUsing := fun um => toString um.length ++ "\n"
    headerEnums := fun ms => String.join (ms.map (fun m => m.name ++ "\n"))
    headerStructs := fun m => m.name ++ "\x7b\x7d\n"
    headerEnd := fun _ => "HE\n"
    sourceBegin := "SB\n"
    sourceStructs := fun m => m.name ++ "()\n"
    sourceEnd := fun _ => "SE\n" }

/-- Witness for C9: two runs of the pipeline on the two-block input produce
the same artifact pair. -/
theorem C9_pipeline_deterministic_witness :
    runPipeline constTemplates inputTwoBlocks = runPipeline constTemplates inputTwoBlocks :=
  C9_pipeline_deterministic constTemplates inputTwoBlocks inputTwoBlocks rfl

/-- Counterexample to C2: in `inputGroupRepeated` the group field `B` is
flagged repeated, yet no preceding sibling is consumed — `A` is still in the
group list and `B`'s `variable_length_size_cpp_using_type` was never
assigned, because the group inner loop elides the size field only for
variable-length fields, not for repeated ones. -/
theorem C2_counterexample :
    (parseMessages defaultTypeMap inputGroupRepeated).map (fun ms => ms.map (fun m =>
      m.fields.map (fun f => f.group_fields.map (fun gl => gl.map (fun g =>
        (g.spec_name, g.is_repeated, g.is_variable_length,
          g.variable_length_size_cpp_using_type))))))
    = .ok [[none, some [("A", false, false, none), ("B", true, false, none)]]] := rfl

/-- Counterexample to C10: a group whose first field is repeated (but not
variable-length) does not raise — assembly returns a `MessageSpec` whose
group list still starts with the repeated field `B`. -/
theorem C10_counterexample :
    (parseMessages defaultTypeMap inputGroupFirstRepeated).map (fun ms => ms.map (fun m =>
      (m.name, m.fields.map (fun f => (f.name, f.group_fields.map (fun gl =>
        gl.map (fun g => (g.spec_name, g.is_repeated, g.is_variable_length))))))))
    = .ok [("M", [("type", none), ("group_0", some [("B", true, false), ("C", false, false)])])] :=
  rfl

/-- Counterexample to C6: the line `Foo (8) = a...b` carries `...` only
inside its default value, not as a trailing marker, yet the parsed field is
flagged repeated, because the code tests `"..." in line`. -/
theorem C6_counterexample :
    ((parseFieldDefinition [] "M" "Foo (8) = a...b" none).map
        (fun f => (f.spec_name, f.default_value, f.is_repeated))
      = some ("Foo", some "a...b", true))
    ∧ (['.', '.', '.'] : List Char).isSuffixOf (cleanLine "Foo (8) = a...b") = false :=
  ⟨rfl, rfl⟩

/-- Counterexample to C8: on `inputSingleGroup` the alias map contains the
group member `A`, which is an optional field (every group member is), in
contradiction with "contains no discarded or optional field". -/
theorem C8_counterexample :
    (parseMessages defaultTypeMap inputSingleGroup).map (fun ms =>
      (buildUsingMap ms).map (fun q => (q.1, q.2.is_optional, q.2.spec_name)))
    = .ok [("A", true, "A")] := rfl

/-- C2 as amended: at top level a repeated or variable-length field consumes
the immediately preceding accumulated field — it is removed and its
`cpp_using_type` is recorded as the new field's size-field type; inside an
optional group the same elision happens only for variable-length fields on
non-closing lines, while the field parsed from the group's closing line is
appended without any elision (so a repeated-only group field consumes
nothing).  Accumulated lists are newest-first; Python's `pop()` is the head. -/
theorem C2_amended_elision (tm : TypeMap) (mn grp : String) (st : AsmState)
    (line : String) (gfs : List FieldBase) :
    (∀ f prev rest, parseFieldDefinition st.tm mn line none = some f →
        f.name ≠ "type" → (f.is_repeated || f.is_variable_length) = true →
        st.fields = prev :: rest →
        stepTop mn st line = .ok { st with fields :=
          (FieldBase.toField
            { f with variable_length_size_cpp_using_type := some prev.cpp_using_type })
            :: rest })
    ∧ (∀ f prev rest, parseFieldDefinition tm mn line (some grp) = some f →
        f.is_variable_length = true → gfs = prev :: rest →
        groupBodyStep mn grp tm gfs line = .ok
          ({ f with variable_length_size_cpp_using_type := some prev.cpp_using_type } :: rest))
    ∧ (∀ f, parseFieldDefinition tm mn line (some grp) = some f →
        f.is_variable_length = false →
        groupBodyStep mn grp tm gfs line = .ok (f :: gfs))
    ∧ (∀ f, line ≠ "" → parseFieldDefinition tm mn line (some grp) = some f →
        groupClosingStep mn grp tm gfs line = f :: gfs) := by
  refine ⟨?_, ?_, ?_, ?_⟩
  · intro f prev rest hf hname hflag hfields
    simp [stepTop, hf, hname, hflag, hfields]
  · intro f prev rest hf hvar hgfs
    simp [groupBodyStep, hf, hvar, hgfs]
  · intro f hf hvar
    simp [groupBodyStep, hf, hvar]
  · intro f hne hf
    simp [groupClosingStep, hne, hf]

/-- Size field consumed by the C2 witness. -/
def c2wPrev : FieldBase :=
  (parseFieldDefinition [] "M" "Len (8)" none).getD blankFieldBase

/-- Variable-length field of the C2 witness, top-level variant. -/
def c2wVarTop : FieldBase :=
  (parseFieldDefinition [] "M" "Payload (..)" none).getD blankFieldBase

/-- Variable-length field of the C2 witness, in-group variant. -/
def c2wVarGrp : FieldBase :=
  (parseFieldDefinition [] "M" "Payload (..)" (some "Group_0")).getD blankFieldBase

/-- Assembler state of the C2 witness: one previously accumulated field. -/
def c2wSt : AsmState := { fields := [c2wPrev.toField] }

/-- Witness for C2 (amended): on the line `Payload (..)` preceded by
`Len (8)` the elision fires both at top level and inside a group. -/
theorem C2_amended_elision_witness :
    (stepTop "M" c2wSt "Payload (..)" = .ok { c2wSt with fields :=
        [FieldBase.toField
          { c2wVarTop with variable_length_size_cpp_using_type := some c2wPrev.cpp_using_type }] })
    ∧ (groupBodyStep "M" "Group_0" [] [c2wPrev] "Payload (..)" = .ok
        [{ c2wVarGrp with variable_length_size_cpp_using_type := some c2wPrev.cpp_using_type }]) :=
  ⟨(C2_amended_elision [] "M" "Group_0" c2wSt "Payload (..)" [c2wPrev]).1
      c2wVarTop c2wPrev.toField [] rfl (by decide) rfl rfl,
   (C2_amended_elision [] "M" "Group_0" c2wSt "Payload (..)" [c2wPrev]).2.1
      c2wVarGrp c2wPrev [] rfl rfl rfl⟩

/-- C6 as amended: a parsed field is flagged repeated exactly when the
substring `...` occurs anywhere in the cleaned line (after comment
stripping, whitespace stripping and trailing-comma removal) — not only as a
trailing marker. -/
theorem C6_amended_repeated_flag (tm : TypeMap) (mn line : String)
    (gn : Option String) (f : FieldBase)
    (h : parseFieldDefinition tm mn line gn = some f) :
    f.is_repeated = listContains ['.', '.', '.'] (cleanLine line) := by
  simp only [parseFieldDefinition] at h
  split at h
  · exact absurd h (by simp)
  · split at h
    · exact absurd h (by simp)
    · simp only [Option.some.injEq] at h
      rw [← h]

/-- Repeated field of the C6 witness. -/
def c6wField : FieldBase :=
  (parseFieldDefinition [] "M" "A (8) ..." none).getD blankFieldBase

/-- Witness for C6 (amended), on a line with a genuine trailing marker. -/
theorem C6_amended_repeated_flag_witness :
    c6wField.is_repeated = listContains ['.', '.', '.'] (cleanLine "A (8) ...") :=
  C6_amended_repeated_flag [] "M" "A (8) ..." none c6wField rfl

/-- C10 as amended: a block whose first retained top-level field is repeated
or variable-length raises `IndexError` (pop from the empty field list), and
so does a variable-length first field on a non-closing group line; but a
first group field that is merely repeated does not raise — it is appended
and assembly proceeds. -/
theorem C10_amended_first_field (tm : TypeMap) (mn grp : String) (st : AsmState)
    (line : String) :
    (∀ f, parseFieldDefinition st.tm mn line none = some f →
        f.name ≠ "type" → (f.is_repeated || f.is_variable_length) = true →
        st.fields = [] → stepTop mn st line = .error .indexError)
    ∧ (∀ f, parseFieldDefinition tm mn line (some grp) = some f →
        f.is_variable_length = true →
        groupBodyStep mn grp tm [] line = .error .indexError)
    ∧ (∀ f, parseFieldDefinition tm mn line (some grp) = some f →
        f.is_variable_length = false → f.is_repeated = true →
        groupBodyStep mn grp tm [] line = .ok [f]) := by
  refine ⟨?_, ?_, ?_⟩
  · intro f hf hname hflag hfields
    simp [stepTop, hf, hname, hflag, hfields]
  · intro f hf hvar
    simp [groupBodyStep, hf, hvar]
  · intro f hf hvar _
    simp [groupBodyStep, hf, hvar]

/-- Top-level variable-length field of the C10 witness. -/
def c10wVarTop : FieldBase :=
  (parseFieldDefinition [] "M" "Payload (..)" none).getD blankFieldBase

/-- In-group variable-length field of the C10 witness. -/
def c10wVarGrp : FieldBase :=
  (parseFieldDefinition [] "M" "Payload (..)" (some "Group_0")).getD blankFieldBase

/-- In-group repeated field of the C10 witness. -/
def c10wRep : FieldBase :=
  (parseFieldDefinition [] "M" "B (i) ..." (some "Group_0")).getD blankFieldBase

/-- Fresh assembler state for the C10 witness. -/
def c10wSt : AsmState := {}

/-- Witness for C10 (amended): with nothing accumulated, `Payload (..)`
raises at top level and in a group, while the repeated `B (i) ...` in a group
is appended without an exception. -/
theorem C10_amended_first_field_witness :
    (stepTop "M" c10wSt "Payload (..)" = .error .indexError)
    ∧ (groupBodyStep "M" "Group_0" [] [] "Payload (..)" = .error .indexError)
    ∧ (groupBodyStep "M" "Group_0" [] [] "B (i) ..." = .ok [c10wRep]) :=
  ⟨(C10_amended_first_field [] "M" "Group_0" c10wSt "Payload (..)").1
      c10wVarTop rfl (by decide) rfl rfl,
   (C10_amended_first_field [] "M" "Group_0" c10wSt "Payload (..)").2.1
      c10wVarGrp rfl rfl,
   (C10_amended_first_field [] "M" "Group_0" c10wSt "B (i) ...").2.2
      c10wRep rfl rfl rfl⟩


/-! ### C5: symbolic run of a `Type (8) = <hex>` line -/

/-- One `dropWhile` step on a non-matching head. -/
theorem dropWhile_cons_of_false {p : Char → Bool} {x : Char} {xs : List Char}
    (h : p x = false) : List.dropWhile p (x :: xs) = x :: xs := by
  rw [List.dropWhile_cons, h]
  simp

/-- Character prefix of a wire-type line: `Type (8) = `. -/
def typeLinePre : List Char := ['T', 'y', 'p', 'e', ' ', '(', '8', ')', ' ', '=', ' ']

/-- Field-pattern match on a wire-type line with an alphanumeric literal. -/
theorem matchField_typeLine (s : List Char) (hne : s ≠ [])
    (hal : ∀ c ∈ s, isAlnumChar c = true) :
    matchField (typeLinePre ++ s) = some (['T', 'y', 'p', 'e'], ['8'], some s) := by
  obtain ⟨c, cs, rfl⟩ := List.exists_cons_of_ne_nil hne
  have hds : List.dropWhile isSpaceChar (c :: cs) = c :: cs :=
    dropWhile_eq_self_of_none (fun x hx => isAlnumChar_not_space (hal x hx))
  have htw : List.takeWhile (fun x => !decide (x = ',')) (c :: cs) = c :: cs :=
    takeWhile_eq_self_of_all (fun x hx => by
      have := isAlnumChar_ne ',' (hal x hx) (by decide)
      simpa using this)
  have hcne : ¬c = ',' := isAlnumChar_ne ',' (hal c (by simp)) (by decide)
  simp [matchField, splitFirst, isNameStart, isNameBody, isSpaceChar,
    rdropWhileList, ltrimList, typeLinePre, hds, htw, hcne]

/-- Comment/whitespace/comma cleanup leaves a wire-type line unchanged. -/
theorem cleanLine_typeLine (s : List Char) (hne : s ≠ [])
    (hal : ∀ c ∈ s, isAlnumChar c = true) :
    cleanLine (String.mk (typeLinePre ++ s)) = typeLinePre ++ s := by
  have h1 : (typeLinePre ++ s).takeWhile (fun c => c ≠ '#') = typeLinePre ++ s := by
    apply takeWhile_eq_self_of_all
    intro c hc
    rcases List.mem_append.mp hc with h | h
    · exact (by decide : ∀ c ∈ typeLinePre, decide (c ≠ '#') = true) c h
    · have := isAlnumChar_ne '#' (hal c h) (by decide)
      simpa using this
  have h2 : trimList (typeLinePre ++ s) = typeLinePre ++ s := by
    unfold trimList ltrimList
    have hd : List.dropWhile isSpaceChar (typeLinePre ++ s) = typeLinePre ++ s := by
      rw [show typeLinePre ++ s
          = 'T' :: (['y', 'p', 'e', ' ', '(', '8', ')', ' ', '=', ' '] ++ s) from rfl]
      exact dropWhile_cons_of_false (by decide)
    rw [hd]
    exact rdropWhileList_append_eq_self isSpaceChar typeLinePre hne
      (fun c hc => isAlnumChar_not_space (hal c hc))
  have h3 : rstripCommas (typeLinePre ++ s) = typeLinePre ++ s := by
    unfold rstripCommas
    exact rdropWhileList_append_eq_self _ typeLinePre hne (fun c hc => by
      have := isAlnumChar_ne ',' (hal c hc) (by decide)
      simpa using this)
  show rstripCommas (trimList ((typeLinePre ++ s).takeWhile (fun c => c ≠ '#'))) = _
  rw [h1, h2, h3]

/-- The field produced by `parse_field_definition` on `Type (8) = <s>`. -/
def typeLineField (tm : TypeMap) (mn : String) (s : List Char) : FieldBase :=
  { name := "type", field_type := "8", spec_name := "Type", spec_type := some "8"
    cpp_type := some (resolveFieldType tm mn "Type" "8").1
    cpp_using_type := some (resolveFieldType tm mn "Type" "8").1
    cpp_using_name := some (resolveFieldType tm mn "Type" "8").2
    default_value := some (String.mk s) }

/-- Field-line parse of a wire-type line with an alphanumeric literal. -/
theorem parseFD_typeLine (tm : TypeMap) (mn : String) (s : List Char)
    (hne : s ≠ []) (hal : ∀ c ∈ s, isAlnumChar c = true) :
    parseFieldDefinition tm mn (String.mk (typeLinePre ++ s)) none
      = some (typeLineField tm mn s) := by
  have hcl := cleanLine_typeLine s hne hal
  have hmf := matchField_typeLine s hne hal
  have hnotdot : listContains ['.', '.', '.'] (typeLinePre ++ s) = false := by
    apply listContains_dots_eq_false
    intro c hc
    rcases List.mem_append.mp hc with h | h
    · exact (by decide : ∀ c ∈ typeLinePre, c ≠ '.') c h
    · exact isAlnumChar_ne '.' (hal c h) (by decide)
  have htrim : trimList s = s := by
    unfold trimList ltrimList
    rw [dropWhile_eq_self_of_none (fun c hc => isAlnumChar_not_space (hal c hc))]
    have := rdropWhileList_append_eq_self isSpaceChar [] hne
      (fun c hc => isAlnumChar_not_space (hal c hc))
    simpa using this
  have htrim2 : (List.dropWhile isSpaceChar (List.dropWhile isSpaceChar s).reverse).reverse = s := by
    have h := htrim
    unfold trimList ltrimList rdropWhileList at h
    exact h
  have e1 : String.mk ['T', 'y', 'p', 'e'] = "Type" := by decide
  have e2 : String.mk ['8'] = "8" := by decide
  simp only [typeLinePre, List.cons_append, List.nil_append] at hcl hmf hnotdot ⊢
  simp +decide [parseFieldDefinition, hcl, hmf, hnotdot, htrim, htrim2, typeLineField,
    lowerUnderscore, trimList, ltrimList, rdropWhileList, isSpaceChar, e1, e2]

/-- Scanning step on a wire-type line: the field is appended and the parsed
hex value of the default becomes the message enum. -/
theorem stepTop_typeLine (mn : String) (st : AsmState) (s : List Char) (v : Int)
    (hne : s ≠ []) (hal : ∀ c ∈ s, isAlnumChar c = true)
    (hv : int16 (String.mk s) = some v) :
    stepTop mn st (String.mk (typeLinePre ++ s))
      = .ok { st with
          fields := (typeLineField st.tm mn s).toField :: st.fields,
          message_enum := some v } := by
  have hp := parseFD_typeLine st.tm mn s hne hal
  simp [stepTop, hp, typeLineField, hv, FieldBase.toField]

/-- C5: for a block whose first body line is `Type (8) = <lit>` with `<lit>`
a nonempty alphanumeric literal accepted by `int(lit, 16)` with value `v`,
followed by any lines that assemble without touching the already-set wire id
(hypothesis `H`, trivially true for an empty suffix), assembly succeeds and
the message's wire-type identifier equals `v` — in particular, for
`Type (8) = 0xNN` it equals the integer value of `0xNN`. -/
theorem C5_wire_type_id (mn mt : String) (st : AsmState) (s : List Char) (v : Int)
    (post : List String)
    (hne : s ≠ []) (hal : ∀ c ∈ s, isAlnumChar c = true)
    (hg : st.inGroup = none) (hv : int16 (String.mk s) = some v)
    (H : ∀ st', st'.message_enum = some v →
        ∃ st'', processLines mn mt st' post = .ok st'' ∧ st''.message_enum = some v) :
    ∃ stF, processLines mn mt st (String.mk (typeLinePre ++ s) :: post) = .ok stF
      ∧ stF.message_enum = some v := by
  have hst := stepTop_typeLine mn st s v hne hal hv
  have hstep : processLine mn mt st (String.mk (typeLinePre ++ s))
      = .ok { st with
          fields := (typeLineField st.tm mn s).toField :: st.fields,
          message_enum := some v } := by
    simp only [processLine, hg]
    simp only [hg] at hst
    simp only [typeLinePre, List.cons_append, List.nil_append] at hst ⊢
    simpa using hst
  obtain ⟨st2, h2, h3⟩ :=
    H { st with
          fields := (typeLineField st.tm mn s).toField :: st.fields,
          message_enum := some v } rfl
  refine ⟨st2, ?_, h3⟩
  simp only [processLines, hstep]
  exact h2

/-- Fresh assembler state for the C5 witness. -/
def c5wSt : AsmState := {}

/-- Witness for C5: the body line `Type (8) = 0x05` alone yields wire id 5. -/
theorem C5_wire_type_id_witness :
    ∃ stF, processLines "M" "M" c5wSt
        [String.mk (typeLinePre ++ ['0', 'x', '0', '5'])] = .ok stF
      ∧ stF.message_enum = some 5 :=
  C5_wire_type_id "M" "M" c5wSt ['0', 'x', '0', '5'] 5 []
    (by decide) (by decide) rfl (by decide)
    (fun st' h => ⟨st', rfl, h⟩)

/-! ### C8: characterization of the alias (`using`) map -/

/-- Key presence in an association list. -/
def keyMem {α : Type} (m : List (String × α)) (k : String) : Prop := ∃ v, (k, v) ∈ m

/-- Entries of an upsert come from the old map or are the new pair. -/
theorem mem_alInsert {α : Type} {m : List (String × α)} {k' : String} {v' : α}
    {k : String} {v : α} (h : (k, v) ∈ alInsert m k' v') :
    (k, v) ∈ m ∨ (k = k' ∧ v = v') := by
  unfold alInsert at h
  split at h
  · obtain ⟨q, hq, he⟩ := List.mem_map.mp h
    by_cases hk : q.1 == k'
    · rw [if_pos hk] at he
      right
      injection he with h1 h2
      exact ⟨h1.symm, h2.symm⟩
    · rw [if_neg hk] at he
      left
      exact he ▸ hq
  · rcases List.mem_append.mp h with h | h
    · left; exact h
    · right
      simpa using h

/-- An upsert makes its key present. -/
theorem keyMem_alInsert_self {α : Type} (m : List (String × α)) (k : String) (v : α) :
    keyMem (alInsert m k v) k := by
  unfold alInsert
  split
  · rename_i hany
    obtain ⟨q, hq, hqk⟩ := List.any_eq_true.mp hany
    exact ⟨v, List.mem_map.mpr ⟨q, hq, by simp [hqk]⟩⟩
  · exact ⟨v, List.mem_append.mpr (Or.inr (by simp))⟩

/-- An upsert preserves key presence. -/
theorem keyMem_alInsert_mono {α : Type} {m : List (String × α)} {k : String}
    (k' : String) (v' : α) (h : keyMem m k) : keyMem (alInsert m k' v') k := by
  obtain ⟨v, hv⟩ := h
  unfold alInsert
  split
  · by_cases hk : (k == k') = true
    · have hk' : k = k' := by simpa using hk
      subst hk'
      exact ⟨v', List.mem_map.mpr ⟨(k, v), hv, by simp⟩⟩
    · refine ⟨v, List.mem_map.mpr ⟨(k, v), hv, ?_⟩⟩
      simp only [if_neg hk]
  · exact ⟨v, List.mem_append.mpr (Or.inl hv)⟩

/-- Entries after one group-member insertion. -/
theorem mem_addGroupFieldUsing {acc : UsingMap} {gf : FieldBase} {k : String} {v : Field}
    (h : (k, v) ∈ addGroupFieldUsing acc gf) :
    (k, v) ∈ acc ∨ (v = gf.toField ∧ gf.cpp_using_name = some k) := by
  unfold addGroupFieldUsing at h
  split at h
  · rename_i k0 hk0
    rcases mem_alInsert h with h' | ⟨rfl, rfl⟩
    · left; exact h'
    · right; exact ⟨rfl, hk0⟩
  · left; exact h

/-- Group-member insertion preserves key presence. -/
theorem keyMem_addGroupFieldUsing_mono {acc : UsingMap} {k : String} (gf : FieldBase)
    (h : keyMem acc k) : keyMem (addGroupFieldUsing acc gf) k := by
  cases hc : gf.cpp_using_name with
  | some k0 =>
    have he : addGroupFieldUsing acc gf = alInsert acc k0 gf.toField := by
      simp [addGroupFieldUsing, hc]
    rw [he]
    exact keyMem_alInsert_mono _ _ h
  | none =>
    have he : addGroupFieldUsing acc gf = acc := by
      simp [addGroupFieldUsing, hc]
    rw [he]
    exact h

/-- Entries after folding the group members. -/
theorem mem_foldl_addGroup {gfs : List FieldBase} {um : UsingMap} {k : String} {v : Field}
    (h : (k, v) ∈ gfs.foldl addGroupFieldUsing um) :
    (k, v) ∈ um ∨ ∃ g ∈ gfs, v = g.toField ∧ g.cpp_using_name = some k := by
  induction gfs generalizing um with
  | nil => left; exact h
  | cons hd tl ih =>
    rw [List.foldl_cons] at h
    rcases ih h with h' | ⟨g, hg, he⟩
    · rcases mem_addGroupFieldUsing h' with h'' | he
      · left; exact h''
      · right; exact ⟨hd, by simp, he⟩
    · right; exact ⟨g, List.mem_cons_of_mem _ hg, he⟩

/-- Folding the group members preserves key presence. -/
theorem keyMem_foldl_addGroup_mono {gfs : List FieldBase} {um : UsingMap} {k : String}
    (h : keyMem um k) : keyMem (gfs.foldl addGroupFieldUsing um) k := by
  induction gfs generalizing um with
  | nil => exact h
  | cons hd tl ih => exact ih (keyMem_addGroupFieldUsing_mono hd h)

/-- Every group member's alias key is present after the fold. -/
theorem keyMem_foldl_addGroup_of_mem {gfs : List FieldBase} {um : UsingMap}
    {g : FieldBase} {k : String} (hg : g ∈ gfs) (hk : g.cpp_using_name = some k) :
    keyMem (gfs.foldl addGroupFieldUsing um) k := by
  induction gfs generalizing um with
  | nil => cases hg
  | cons hd tl ih =>
    rcases List.mem_cons.mp hg with rfl | hg'
    · rw [List.foldl_cons]
      apply keyMem_foldl_addGroup_mono
      have he : addGroupFieldUsing um g = alInsert um k g.toField := by
        simp [addGroupFieldUsing, hk]
      rw [he]
      exact keyMem_alInsert_self _ _ _
    · exact ih hg'

/-- Provenance of one `using_map` entry from the field that inserted it. -/
def usingEntryFrom (f : Field) (k : String) (v : Field) : Prop :=
  (∃ gl, f.group_fields = some gl ∧ ∃ g ∈ gl, v = g.toField ∧ g.cpp_using_name = some k)
  ∨ (v = f ∧ f.spec_name ∉ fieldDiscards ∧ f.is_optional = false ∧ f.cpp_using_name = some k)

/-- Entries after the group-member stage. -/
theorem mem_groupUsings {um : UsingMap} {f : Field} {k : String} {v : Field}
    (h : (k, v) ∈ groupUsings um f) :
    (k, v) ∈ um ∨ ∃ gl, f.group_fields = some gl ∧ ∃ g ∈ gl,
      v = g.toField ∧ g.cpp_using_name = some k := by
  unfold groupUsings at h
  revert h
  split
  · rename_i gfs hgf
    split
    · intro h'; left; exact h'
    · intro h'
      rcases mem_foldl_addGroup h' with h'' | ⟨g, hg, he⟩
      · left; exact h''
      · right; exact ⟨gfs, hgf, g, hg, he⟩
  · intro h'; left; exact h'

/-- Entries after one field's accumulation step. -/
theorem mem_addFieldUsings {um : UsingMap} {f : Field} {k : String} {v : Field}
    (h : (k, v) ∈ addFieldUsings um f) : (k, v) ∈ um ∨ usingEntryFrom f k v := by
  simp only [addFieldUsings] at h
  split at h
  · rename_i hcond
    split at h
    · rename_i k0 hk0
      rcases mem_alInsert h with h' | ⟨rfl, rfl⟩
      · rcases mem_groupUsings h' with h'' | hgrp
        · left; exact h''
        · right; left; exact hgrp
      · right; right
        exact ⟨rfl, hcond.1, hcond.2, hk0⟩
    · rcases mem_groupUsings h with h'' | hgrp
      · left; exact h''
      · right; left; exact hgrp
  · rcases mem_groupUsings h with h'' | hgrp
    · left; exact h''
    · right; left; exact hgrp

/-- The group-member stage preserves key presence. -/
theorem keyMem_groupUsings_mono {um : UsingMap} {k : String} (f : Field)
    (h : keyMem um k) : keyMem (groupUsings um f) k := by
  unfold groupUsings
  split
  · split
    · exact h
    · exact keyMem_foldl_addGroup_mono h
  · exact h

/-- Every group member's alias key is present after the stage. -/
theorem keyMem_groupUsings_of_mem {um : UsingMap} {f : Field} {gl : List FieldBase}
    {g : FieldBase} {k : String} (hgf : f.group_fields = some gl) (hg : g ∈ gl)
    (hk : g.cpp_using_name = some k) : keyMem (groupUsings um f) k := by
  unfold groupUsings
  rw [hgf]
  show keyMem (if gl.isEmpty = true then um else List.foldl addGroupFieldUsing um gl) k
  have hne : gl.isEmpty = false := by
    cases gl
    · cases hg
    · rfl
  rw [hne]
  simp only [Bool.false_eq_true, if_false]
  exact keyMem_foldl_addGroup_of_mem hg hk

/-- One field's step preserves key presence. -/
theorem keyMem_addFieldUsings_mono {um : UsingMap} {k : String} (f : Field)
    (h : keyMem um k) : keyMem (addFieldUsings um f) k := by
  simp only [addFieldUsings]
  split
  · split
    · exact keyMem_alInsert_mono _ _ (keyMem_groupUsings_mono f h)
    · exact keyMem_groupUsings_mono f h
  · exact keyMem_groupUsings_mono f h

/-- A field's step records every group member's alias key. -/
theorem keyMem_addFieldUsings_group {um : UsingMap} {f : Field} {gl : List FieldBase}
    {g : FieldBase} {k : String} (hgf : f.group_fields = some gl) (hg : g ∈ gl)
    (hk : g.cpp_using_name = some k) : keyMem (addFieldUsings um f) k := by
  simp only [addFieldUsings]
  split
  · split
    · exact keyMem_alInsert_mono _ _ (keyMem_groupUsings_of_mem hgf hg hk)
    · exact keyMem_groupUsings_of_mem hgf hg hk
  · exact keyMem_groupUsings_of_mem hgf hg hk

/-- A non-discarded, non-optional field's step records its alias key. -/
theorem keyMem_addFieldUsings_top {um : UsingMap} {f : Field} {k : String}
    (hd : f.spec_name ∉ fieldDiscards) (ho : f.is_optional = false)
    (hk : f.cpp_using_name = some k) : keyMem (addFieldUsings um f) k := by
  have hcond : f.spec_name ∉ fieldDiscards ∧ f.is_optional = false := ⟨hd, ho⟩
  simp only [addFieldUsings, hk]
  rw [if_pos hcond]
  exact keyMem_alInsert_self _ _ _

/-- Entries after folding a message's fields. -/
theorem mem_foldl_fields {fl : List Field} {um : UsingMap} {k : String} {v : Field}
    (h : (k, v) ∈ fl.foldl addFieldUsings um) :
    (k, v) ∈ um ∨ ∃ f ∈ fl, usingEntryFrom f k v := by
  induction fl generalizing um with
  | nil => left; exact h
  | cons hd tl ih =>
    rw [List.foldl_cons] at h
    rcases ih h with h' | ⟨f, hf, he⟩
    · rcases mem_addFieldUsings h' with h'' | he
      · left; exact h''
      · right; exact ⟨hd, by simp, he⟩
    · right; exact ⟨f, List.mem_cons_of_mem _ hf, he⟩

/-- Folding a message's fields preserves key presence. -/
theorem keyMem_foldl_fields_mono {fl : List Field} {um : UsingMap} {k : String}
    (h : keyMem um k) : keyMem (fl.foldl addFieldUsings um) k := by
  induction fl generalizing um with
  | nil => exact h
  | cons hd tl ih => exact ih (keyMem_addFieldUsings_mono hd h)

/-- A per-field insertion survives the fields fold. -/
theorem keyMem_foldl_fields_of {fl : List Field} {um : UsingMap} {f : Field} {k : String}
    (hf : f ∈ fl) (H : ∀ um', keyMem (addFieldUsings um' f) k) :
    keyMem (fl.foldl addFieldUsings um) k := by
  induction fl generalizing um with
  | nil => cases hf
  | cons hd tl ih =>
    rcases List.mem_cons.mp hf with rfl | hf'
    · rw [List.foldl_cons]
      exact keyMem_foldl_fields_mono (H um)
    · exact ih hf'

/-- Entries after folding the messages. -/
theorem mem_foldl_msgs {msgs : List MessageSpec} {acc : UsingMap} {k : String}
    {v : Field}
    (h : (k, v) ∈ msgs.foldl (fun a m => m.fields.foldl addFieldUsings a) acc) :
    (k, v) ∈ acc ∨ ∃ m ∈ msgs, ∃ f ∈ m.fields, usingEntryFrom f k v := by
  induction msgs generalizing acc with
  | nil => left; exact h
  | cons hd tl ih =>
    rw [List.foldl_cons] at h
    rcases ih h with h' | ⟨m, hm, hrest⟩
    · rcases mem_foldl_fields h' with h3 | ⟨f, hf, he⟩
      · left; exact h3
      · right; exact ⟨hd, by simp, f, hf, he⟩
    · right; exact ⟨m, List.mem_cons_of_mem _ hm, hrest⟩

/-- Every entry of the alias map comes from some field of some message. -/
theorem mem_buildUsingMap {msgs : List MessageSpec} {k : String} {v : Field}
    (h : (k, v) ∈ buildUsingMap msgs) :
    ∃ m ∈ msgs, ∃ f ∈ m.fields, usingEntryFrom f k v := by
  unfold buildUsingMap at h
  rcases mem_foldl_msgs h with h' | hfound
  · cases h'
  · exact hfound

/-- Folding the messages preserves key presence. -/
theorem keyMem_foldl_msgs_mono {msgs : List MessageSpec} {acc : UsingMap} {k : String}
    (h : keyMem acc k) :
    keyMem (msgs.foldl (fun a m => m.fields.foldl addFieldUsings a) acc) k := by
  induction msgs generalizing acc with
  | nil => exact h
  | cons hd tl ih => exact ih (keyMem_foldl_fields_mono h)

/-- A per-field insertion survives the whole accumulation. -/
theorem keyMem_buildUsingMap_of {msgs : List MessageSpec} {m : MessageSpec}
    {f : Field} {k : String} (hm : m ∈ msgs) (hf : f ∈ m.fields)
    (H : ∀ um', keyMem (addFieldUsings um' f) k) :
    keyMem (buildUsingMap msgs) k := by
  unfold buildUsingMap
  have aux : ∀ (l : List MessageSpec), m ∈ l → ∀ (acc : UsingMap),
      keyMem (l.foldl (fun a mm => mm.fields.foldl addFieldUsings a) acc) k := by
    intro l
    induction l with
    | nil => intro h'; cases h'
    | cons hd tl ih =>
      intro h' acc
      rcases List.mem_cons.mp h' with rfl | h''
      · rw [List.foldl_cons]
        exact keyMem_foldl_msgs_mono (keyMem_foldl_fields_of hf H)
      · exact ih h'' _
  exact aux msgs hm []

/-- C8 as amended: the alias map contains (soundness) only entries inserted
for a group member field — regardless of its optional or discard status; all
group members are optional — or for a non-optional top-level field whose
original `spec_name` is not literally `Type` or `Length`; and (completeness)
the alias key of every group member and of every non-discarded, non-optional
top-level field is present.  Membership of discarded/optional top-level
fields is thereby excluded, but optional group members are included —
contrary to the claim's "contains no discarded or optional field". -/
theorem C8_amended_using_map (msgs : List MessageSpec) :
    (∀ k v, (k, v) ∈ buildUsingMap msgs →
        ∃ m ∈ msgs, ∃ f ∈ m.fields, usingEntryFrom f k v)
    ∧ (∀ m ∈ msgs, ∀ f ∈ m.fields, ∀ gl, f.group_fields = some gl →
        ∀ g ∈ gl, ∀ k, g.cpp_using_name = some k → keyMem (buildUsingMap msgs) k)
    ∧ (∀ m ∈ msgs, ∀ f ∈ m.fields, f.spec_name ∉ fieldDiscards → f.is_optional = false →
        ∀ k, f.cpp_using_name = some k → keyMem (buildUsingMap msgs) k) := by
  refine ⟨?_, ?_, ?_⟩
  · intro k v h
    exact mem_buildUsingMap h
  · intro m hm f hf gl hgf g hg k hk
    exact keyMem_buildUsingMap_of hm hf (fun um' => keyMem_addFieldUsings_group hgf hg hk)
  · intro m hm f hf hd ho k hk
    exact keyMem_buildUsingMap_of hm hf (fun um' => keyMem_addFieldUsings_top hd ho hk)

/-- Messages parsed from `inputSingleGroup` for the C8 witness. -/
def c8wMsgs : List MessageSpec :=
  (parseMessages defaultTypeMap inputSingleGroup).toOption.getD []

/-- First alias-map entry of the C8 witness. -/
def c8wEntry : String × Field := (buildUsingMap c8wMsgs).headD ("", blankFieldBase.toField)

/-- The single message of the C8 witness. -/
def c8wMsg : MessageSpec := c8wMsgs.headD ⟨"", "", "", 0, [], []⟩

/-- The group aggregate field of the C8 witness. -/
def c8wAgg : Field := c8wMsg.fields.getD 1 blankFieldBase.toField

/-- Witness for C8 (amended): the single entry of the alias map built from
`inputSingleGroup` comes from a field of the parsed message, and the group
member key `A` is present. -/
theorem C8_amended_using_map_witness :
    (∃ m ∈ c8wMsgs, ∃ f ∈ m.fields, usingEntryFrom f c8wEntry.1 c8wEntry.2)
    ∧ keyMem (buildUsingMap c8wMsgs) "A" :=
  ⟨(C8_amended_using_map c8wMsgs).1 c8wEntry.1 c8wEntry.2 (by decide),
   (C8_amended_using_map c8wMsgs).2.1 c8wMsg (by decide) c8wAgg (by decide)
     (c8wAgg.group_fields.getD []) (by decide)
     ((c8wAgg.group_fields.getD []).headD blankFieldBase) (by decide) "A" (by decide)⟩

end DraftParser
